import Mathlib

/-!
# Verification of the pipeline parser (`backend1/main.py`)

Shallow embedding of the `/pipelines/parse` endpoint: the `Node`/`Edge`/`Pipeline`
data model, the duplicate-node-id check, the dangling-edge check, graph
construction on a simple directed graph (edges keyed by `(source, target)`, so
parallel edges collapse, exactly as `networkx.DiGraph` does), the acyclicity
test and the cycle witness, together with proofs of the specification claims.

The external library calls `nx.is_directed_acyclic_graph` and `nx.find_cycle`
are modelled by executable Lean functions carrying their documented contracts
(decide the existence of a directed cycle; produce a concrete cycle when one
exists), and both contracts are proved against a single semantic notion of a
closed walk.
-/

namespace PipelineParser

/-- A pipeline node: `id` (identity), optional `type`, optional opaque `data`. -/
structure Node where
  id : String
  ty : Option String := none
  data : Option (List (String × String)) := none
  deriving DecidableEq, Repr

/-- A directed pipeline edge from `source` to `target`, with optional `type`. -/
structure Edge where
  source : String
  target : String
  ty : Option String := none
  deriving DecidableEq, Repr

/-- A pipeline: ordered nodes and ordered edges, as submitted. -/
structure Pipeline where
  nodes : List Node
  edges : List Edge
  deriving DecidableEq, Repr

/-- Result of `parse_pipeline`: one of the two validation errors, or the
success record `{num_nodes, num_edges, is_dag, cycle_path}`. -/
inductive ParseResult where
  | duplicateNodeIds : ParseResult
  | invalidEdges (invalid_edges : List (String × String)) : ParseResult
  | success (num_nodes : Nat) (num_edges : Nat) (is_dag : Bool)
      (cycle_path : List (String × String)) : ParseResult
  deriving DecidableEq, Repr

/-- `IsWalk E v w t`: the edge list `w` is a directed walk from vertex `v` to
vertex `t` using only edges of `E` (consecutive edges chain head to tail). -/
def IsWalk (E : List (String × String)) : String → List (String × String) → String → Prop
  | v, [], t => v = t
  | v, (a, b) :: rest, t => v = a ∧ (a, b) ∈ E ∧ IsWalk E b rest t

/-- `IsWalk` is decidable (it is a finite conjunction of decidable facts). -/
def decIsWalk (E : List (String × String)) :
    (v : String) → (w : List (String × String)) → (t : String) → Decidable (IsWalk E v w t)
  | v, [], t => decidable_of_iff (v = t) Iff.rfl
  | v, (a, b) :: rest, t =>
    have : Decidable (IsWalk E b rest t) := decIsWalk E b rest t
    decidable_of_iff (v = a ∧ (a, b) ∈ E ∧ IsWalk E b rest t) Iff.rfl

instance (E : List (String × String)) (v : String) (w : List (String × String)) (t : String) :
    Decidable (IsWalk E v w t) := decIsWalk E v w t

/-- The graph over edge list `E` contains a directed cycle: some nonempty
closed walk exists. Self-loops give cycles of length 1. -/
def HasCycle (E : List (String × String)) : Prop :=
  ∃ v w, w ≠ [] ∧ IsWalk E v w v

/-- All walks of length at most `n` that start at vertex `v` and use edges
of `E`, as explicit edge lists. -/
def walksFrom (E : List (String × String)) : String → Nat → List (List (String × String))
  | _, 0 => [[]]
  | v, n + 1 =>
    [] :: (E.filter (fun e => e.1 == v)).flatMap
      (fun e => (walksFrom E e.2 n).map (fun w => e :: w))

/-- Model of `networkx.find_cycle`: scan the vertices in order and return the
first nonempty closed walk found (bounded search; a cycle, if any exists,
always has a duplicate-free representative of length at most `E.length`).
Returns `none` exactly when the graph is acyclic. -/
def find_cycle (V : List String) (E : List (String × String)) :
    Option (List (String × String)) :=
  V.findSome? (fun v =>
    (walksFrom E v E.length).find? (fun w => !w.isEmpty && decide (IsWalk E v w v)))

/-- Model of `networkx.is_directed_acyclic_graph`: no vertex of `V` admits a
nonempty closed walk. -/
def is_directed_acyclic_graph (V : List String) (E : List (String × String)) : Bool :=
  V.all (fun v =>
    (walksFrom E v E.length).all (fun w => w.isEmpty || !(decide (IsWalk E v w v))))

/-- `node_ids = [node.id for node in pipeline.nodes]`. -/
def nodeIds (p : Pipeline) : List String :=
  p.nodes.map Node.id

/-- The list-comprehension of offending edges: edges whose source or target is
not a member of the node-id set, projected to `(source, target)` pairs. -/
def invalidEdgesOf (p : Pipeline) : List (String × String) :=
  (p.edges.filter (fun e => decide (e.source ∉ nodeIds p ∨ e.target ∉ nodeIds p))).map
    (fun e => (e.source, e.target))

/-- The arc set of the constructed `nx.DiGraph`: edges are keyed by the pair
`(source, target)`, so parallel duplicates collapse to one arc.  `List.dedup`
keeps one representative per distinct pair. -/
def graphEdges (p : Pipeline) : List (String × String) :=
  ((p.edges.map (fun e => (e.source, e.target))).dedup)

/-- Embedding of the `POST /pipelines/parse` handler:
duplicate-id check, dangling-edge check, graph construction, counts,
DAG test and cycle witness. -/
def parse_pipeline (p : Pipeline) : ParseResult :=
  if (nodeIds p).length ≠ (nodeIds p).dedup.length then
    ParseResult.duplicateNodeIds
  else if invalidEdgesOf p ≠ [] then
    ParseResult.invalidEdges (invalidEdgesOf p)
  else
    let Eg := graphEdges p
    let d := is_directed_acyclic_graph (nodeIds p) Eg
    ParseResult.success (nodeIds p).dedup.length Eg.length d
      (if d then [] else (find_cycle (nodeIds p) Eg).getD [])

/-! ## Walk lemmas -/

theorem isWalk_nil {E : List (String × String)} {v t : String} :
    IsWalk E v [] t ↔ v = t := Iff.rfl

theorem isWalk_cons {E : List (String × String)} {v t a b : String}
    {rest : List (String × String)} :
    IsWalk E v ((a, b) :: rest) t ↔ v = a ∧ (a, b) ∈ E ∧ IsWalk E b rest t := Iff.rfl

theorem isWalk_append {E : List (String × String)} :
    ∀ (p q : List (String × String)) {v t : String},
      IsWalk E v (p ++ q) t ↔ ∃ m, IsWalk E v p m ∧ IsWalk E m q t := by
  intro p
  induction p with
  | nil =>
    intro q v t
    constructor
    · intro h; exact ⟨v, rfl, h⟩
    · rintro ⟨m, rfl, h⟩; exact h
  | cons e rest ih =>
    intro q v t
    obtain ⟨a, b⟩ := e
    constructor
    · rintro ⟨rfl, he, hw⟩
      obtain ⟨m, h1, h2⟩ := (ih q).mp hw
      exact ⟨m, ⟨rfl, he, h1⟩, h2⟩
    · rintro ⟨m, ⟨rfl, he, h1⟩, h2⟩
      exact ⟨rfl, he, (ih q).mpr ⟨m, h1, h2⟩⟩

theorem isWalk_mem {E : List (String × String)} :
    ∀ {w : List (String × String)} {v t : String}, IsWalk E v w t → ∀ e ∈ w, e ∈ E := by
  intro w
  induction w with
  | nil => intro v t _ e he; cases he
  | cons x rest ih =>
    intro v t hw e he
    obtain ⟨a, b⟩ := x
    obtain ⟨rfl, hx, hrest⟩ := hw
    rcases List.mem_cons.mp he with rfl | hmem
    · exact hx
    · exact ih hrest e hmem

/-- A list that is not duplicate-free splits around a repeated element. -/
theorem exists_dup_split {α : Type} {l : List α} (h : ¬ l.Nodup) :
    ∃ (a : α) (l1 l2 l3 : List α), l = l1 ++ ((a :: l2) ++ (a :: l3)) := by
  induction l with
  | nil => exact absurd List.nodup_nil h
  | cons x xs ih =>
    by_cases hx : x ∈ xs
    · obtain ⟨s, t, rfl⟩ := List.append_of_mem hx
      exact ⟨x, [], s, t, rfl⟩
    · have hxs : ¬ xs.Nodup := fun hn => h (List.nodup_cons.mpr ⟨hx, hn⟩)
      obtain ⟨a, l1, l2, l3, rfl⟩ := ih hxs
      exact ⟨a, x :: l1, l2, l3, rfl⟩

/-- Any nonempty closed walk contains a nonempty closed walk without repeated
edges: repeatedly cut out the segment between two occurrences of an edge. -/
theorem exists_nodup_cycle {E : List (String × String)} :
    ∀ (n : Nat) {v : String} {w : List (String × String)},
      w.length ≤ n → w ≠ [] → IsWalk E v w v →
      ∃ v2 w2, w2 ≠ [] ∧ w2.Nodup ∧ IsWalk E v2 w2 v2 := by
  intro n
  induction n with
  | zero =>
    intro v w hlen hne _
    exact absurd (List.eq_nil_of_length_eq_zero (Nat.le_zero.mp hlen)) hne
  | succ n ih =>
    intro v w hlen hne hw
    by_cases hnd : w.Nodup
    · exact ⟨v, w, hne, hnd, hw⟩
    · obtain ⟨e, l1, l2, l3, rfl⟩ := exists_dup_split hnd
      obtain ⟨a, b⟩ := e
      obtain ⟨m1, -, hrest⟩ :=
        (isWalk_append l1 (((a, b) :: l2) ++ ((a, b) :: l3))).mp hw
      obtain ⟨m2, hfirst, hsecond⟩ :=
        (isWalk_append ((a, b) :: l2) ((a, b) :: l3)).mp hrest
      obtain ⟨hm1, he, hl2⟩ := hfirst
      obtain ⟨hm2, -, -⟩ := hsecond
      have hcyc : IsWalk E a ((a, b) :: l2) a := ⟨rfl, he, hm2 ▸ hl2⟩
      have hshort : ((a, b) :: l2).length ≤ n := by
        simp only [List.length_append, List.length_cons] at hlen ⊢
        omega
      exact ih hshort (List.cons_ne_nil _ _) hcyc

/-- A duplicate-free walk cannot be longer than the edge list it draws from. -/
theorem length_le_of_nodup_walk {E : List (String × String)} {v t : String}
    {w : List (String × String)} (hw : IsWalk E v w t) (hn : w.Nodup) :
    w.length ≤ E.length :=
  (hn.subperm (fun e he => isWalk_mem hw e he)).length_le

/-- `walksFrom E v n` enumerates exactly the walks from `v` of length ≤ `n`. -/
theorem mem_walksFrom {E : List (String × String)} :
    ∀ (n : Nat) {v : String} {w : List (String × String)},
      w ∈ walksFrom E v n ↔ (∃ t, IsWalk E v w t) ∧ w.length ≤ n := by
  intro n
  induction n with
  | zero =>
    intro v w
    simp only [walksFrom, List.mem_singleton, Nat.le_zero, List.length_eq_zero]
    constructor
    · rintro rfl; exact ⟨⟨v, rfl⟩, rfl⟩
    · rintro ⟨-, rfl⟩; rfl
  | succ n ih =>
    intro v w
    simp only [walksFrom, List.mem_cons, List.mem_flatMap, List.mem_filter,
      List.mem_map, beq_iff_eq]
    constructor
    · rintro (rfl | ⟨e, ⟨heE, hsrc⟩, w2, hw2, rfl⟩)
      · exact ⟨⟨v, rfl⟩, by simp⟩
      · obtain ⟨a, b⟩ := e
        obtain ⟨⟨t, hwalk⟩, hlen⟩ := (ih).mp hw2
        subst hsrc
        exact ⟨⟨t, ⟨rfl, heE, hwalk⟩⟩, by simpa using Nat.succ_le_succ hlen⟩
    · rintro ⟨⟨t, hwalk⟩, hlen⟩
      cases w with
      | nil => exact Or.inl rfl
      | cons e rest =>
        obtain ⟨a, b⟩ := e
        obtain ⟨rfl, he, hrest⟩ := hwalk
        refine Or.inr ⟨(v, b), ⟨he, rfl⟩, rest, (ih).mpr ⟨⟨t, hrest⟩, ?_⟩, rfl⟩
        simpa using Nat.le_of_succ_le_succ hlen

/-! ## Correctness of the cycle finder and the DAG test -/

/-- Soundness of `find_cycle`: any returned list is a nonempty closed walk. -/
theorem find_cycle_sound {V : List String} {E : List (String × String)}
    {c : List (String × String)} (h : find_cycle V E = some c) :
    c ≠ [] ∧ ∃ v, IsWalk E v c v := by
  obtain ⟨v, -, hfind⟩ := List.exists_of_findSome?_eq_some h
  have hp := List.find?_some hfind
  simp only [Bool.and_eq_true, Bool.not_eq_eq_eq_not, Bool.not_true,
    List.isEmpty_eq_false, decide_eq_true_eq] at hp
  refine ⟨?_, v, hp.2⟩
  simpa [List.isEmpty_iff] using hp.1

/-- Completeness of `find_cycle`: when the edge sources all lie in `V` and a
cycle exists, the search returns one. -/
theorem find_cycle_complete {V : List String} {E : List (String × String)}
    (hV : ∀ e ∈ E, e.1 ∈ V) (hc : HasCycle E) :
    ∃ c, find_cycle V E = some c := by
  obtain ⟨v, w, hne, hw⟩ := hc
  obtain ⟨v2, w2, hne2, hnd2, hw2⟩ := exists_nodup_cycle w.length le_rfl hne hw
  have hv2V : v2 ∈ V := by
    cases w2 with
    | nil => exact absurd rfl hne2
    | cons e rest =>
      obtain ⟨a, b⟩ := e
      obtain ⟨rfl, he, -⟩ := hw2
      exact hV _ he
  have hmem : w2 ∈ walksFrom E v2 E.length :=
    (mem_walksFrom E.length).mpr ⟨⟨v2, hw2⟩, length_le_of_nodup_walk hw2 hnd2⟩
  have hpred : (!w2.isEmpty && decide (IsWalk E v2 w2 v2)) = true := by
    simp [List.isEmpty_iff, hne2, hw2]
  cases hopt : find_cycle V E with
  | some c => exact ⟨c, rfl⟩
  | none =>
    exfalso
    have hall := List.findSome?_eq_none_iff.mp hopt v2 hv2V
    have := List.find?_eq_none.mp hall w2 hmem
    exact this hpred

/-- The DAG test decides the absence of a cycle, provided every edge source
lies in the vertex list. -/
theorem is_dag_iff {V : List String} {E : List (String × String)}
    (hV : ∀ e ∈ E, e.1 ∈ V) :
    is_directed_acyclic_graph V E = true ↔ ¬ HasCycle E := by
  constructor
  · intro hdag hc
    obtain ⟨v, w, hne, hw⟩ := hc
    obtain ⟨v2, w2, hne2, hnd2, hw2⟩ := exists_nodup_cycle w.length le_rfl hne hw
    have hv2V : v2 ∈ V := by
      cases w2 with
      | nil => exact absurd rfl hne2
      | cons e rest =>
        obtain ⟨a, b⟩ := e
        obtain ⟨rfl, he, -⟩ := hw2
        exact hV _ he
    have hmem : w2 ∈ walksFrom E v2 E.length :=
      (mem_walksFrom E.length).mpr ⟨⟨v2, hw2⟩, length_le_of_nodup_walk hw2 hnd2⟩
    have h1 := List.all_eq_true.mp hdag v2 hv2V
    have h2 := List.all_eq_true.mp h1 w2 hmem
    simp [List.isEmpty_iff, hne2, hw2] at h2
  · intro hnc
    refine List.all_eq_true.mpr (fun v _ => List.all_eq_true.mpr (fun w hw => ?_))
    by_cases hne : w = []
    · simp [hne]
    · have : ¬ IsWalk E v w v := fun hwalk => hnc ⟨v, w, hne, hwalk⟩
      simp [List.isEmpty_iff, hne, this]

/-- The DAG test reporting a cycle means `find_cycle` produces a witness:
the `NetworkXNoCycle` branch is unreachable after `is_dag` came out false. -/
theorem find_cycle_of_not_dag {V : List String} {E : List (String × String)}
    (hV : ∀ e ∈ E, e.1 ∈ V) (hd : is_directed_acyclic_graph V E = false) :
    ∃ c, find_cycle V E = some c := by
  refine find_cycle_complete hV ?_
  by_contra hnc
  rw [(is_dag_iff hV).mpr hnc] at hd
  cases hd

/-! ## Plumbing lemmas about `parse_pipeline` -/

/-- The duplicate check `len(node_ids) != len(set(node_ids))` characterizes
duplicate-freeness. -/
theorem nodup_iff_length_dedup {α : Type} [DecidableEq α] {l : List α} :
    l.Nodup ↔ l.length = l.dedup.length := by
  constructor
  · intro h
    rw [List.dedup_eq_self.mpr h]
  · intro h
    have heq : l.dedup = l := (List.dedup_sublist l).eq_of_length h.symm
    exact heq ▸ List.nodup_dedup l

/-- Inverting a successful parse: both checks passed and every output field
is the corresponding computation on the constructed graph. -/
theorem parse_success_inv {p : Pipeline} {n m : Nat} {d : Bool}
    {c : List (String × String)}
    (h : parse_pipeline p = ParseResult.success n m d c) :
    (nodeIds p).Nodup ∧ invalidEdgesOf p = [] ∧
    n = (nodeIds p).dedup.length ∧ m = (graphEdges p).length ∧
    d = is_directed_acyclic_graph (nodeIds p) (graphEdges p) ∧
    c = (if d = true then [] else (find_cycle (nodeIds p) (graphEdges p)).getD []) := by
  unfold parse_pipeline at h
  by_cases h1 : (nodeIds p).length ≠ (nodeIds p).dedup.length
  · rw [if_pos h1] at h; cases h
  · rw [if_neg h1] at h
    by_cases h2 : invalidEdgesOf p ≠ []
    · rw [if_pos h2] at h; cases h
    · rw [if_neg h2] at h
      injection h with hn hm hd hc
      subst hn; subst hm; subst hd; subst hc
      push_neg at h1
      exact ⟨nodup_iff_length_dedup.mpr h1, not_ne_iff.mp h2, rfl, rfl, rfl, rfl⟩

/-- Conversely, when both checks pass the handler returns the success record. -/
theorem parse_eq_success {p : Pipeline} (hnd : (nodeIds p).Nodup)
    (hinv : invalidEdgesOf p = []) :
    parse_pipeline p = ParseResult.success (nodeIds p).dedup.length
      (graphEdges p).length
      (is_directed_acyclic_graph (nodeIds p) (graphEdges p))
      (if is_directed_acyclic_graph (nodeIds p) (graphEdges p) then []
       else (find_cycle (nodeIds p) (graphEdges p)).getD []) := by
  have h1 : ¬ ((nodeIds p).length ≠ (nodeIds p).dedup.length) :=
    not_ne_iff.mpr (nodup_iff_length_dedup.mp hnd)
  have h2 : ¬ (invalidEdgesOf p ≠ []) := not_ne_iff.mpr hinv
  unfold parse_pipeline
  rw [if_neg h1, if_neg h2]

/-- After the dangling-edge check passes, every arc of the constructed graph
has its source (and target) among the node ids. -/
theorem graphEdges_endpoints {p : Pipeline} (hinv : invalidEdgesOf p = []) :
    ∀ e ∈ graphEdges p, e.1 ∈ nodeIds p ∧ e.2 ∈ nodeIds p := by
  intro e he
  have hmap : ∀ e2 ∈ p.edges,
      ¬ (e2.source ∉ nodeIds p ∨ e2.target ∉ nodeIds p) := by
    intro e2 he2
    have hfilter :
        p.edges.filter (fun e3 => decide (e3.source ∉ nodeIds p ∨ e3.target ∉ nodeIds p))
          = [] := by
      by_contra hne
      exact hne (by simpa [invalidEdgesOf] using hinv)
    have := List.filter_eq_nil_iff.mp hfilter e2 he2
    simpa using this
  obtain ⟨e2, he2, heq⟩ := List.mem_map.mp (List.mem_dedup.mp he)
  have := hmap e2 he2
  push_neg at this
  rw [← heq]
  exact this

/-! ## Concrete pipelines used as witnesses -/

/-- Two nodes with a duplicated parallel edge `A→B, A→B`. -/
def pipelineParallel : Pipeline :=
  { nodes := [{ id := "A" }, { id := "B" }],
    edges := [{ source := "A", target := "B" }, { source := "A", target := "B" }] }

/-- The three-node cycle `A→B, B→C, C→A`. -/
def pipelineTriangle : Pipeline :=
  { nodes := [{ id := "A" }, { id := "B" }, { id := "C" }],
    edges := [{ source := "A", target := "B" }, { source := "B", target := "C" },
              { source := "C", target := "A" }] }

/-- The acyclic chain `A→B, B→C`. -/
def pipelineChain : Pipeline :=
  { nodes := [{ id := "A" }, { id := "B" }, { id := "C" }],
    edges := [{ source := "A", target := "B" }, { source := "B", target := "C" }] }

/-- A single node with a self-loop. -/
def pipelineSelfLoop : Pipeline :=
  { nodes := [{ id := "A" }], edges := [{ source := "A", target := "A" }] }

/-- Two nodes sharing the id `A`. -/
def pipelineDupIds : Pipeline :=
  { nodes := [{ id := "A" }, { id := "A" }], edges := [] }

/-- One node and a dangling edge `A→Z`. -/
def pipelineDangling : Pipeline :=
  { nodes := [{ id := "A" }], edges := [{ source := "A", target := "Z" }] }

/-- Two nodes and no edges. -/
def pipelineNoEdges : Pipeline :=
  { nodes := [{ id := "A" }, { id := "B" }], edges := [] }

/-! ## Claims -/

/-- C1 counterexample: the pipeline `A→B, A→B` passes both checks with two
submitted edges, yet the reported `num_edges` is 1: `nx.DiGraph` keys arcs by
`(source, target)`, so the parallel duplicate collapses. -/
theorem C1_counterexample :
    parse_pipeline pipelineParallel = ParseResult.success 2 1 true [] ∧
    pipelineParallel.edges.length ≠ 1 := by decide

/-- C1 (amended): for every pipeline that passes both validation checks, the
returned `num_edges` equals the number of distinct `(source, target)` pairs
among the submitted edges — parallel duplicates are deduplicated. -/
theorem C1_num_edges_distinct {p : Pipeline} {n m : Nat} {d : Bool}
    {c : List (String × String)}
    (h : parse_pipeline p = ParseResult.success n m d c) :
    m = ((p.edges.map (fun e => (e.source, e.target))).dedup).length :=
  (parse_success_inv h).2.2.2.1

theorem C1_num_edges_distinct_witness :
    parse_pipeline pipelineParallel = ParseResult.success 2 1 true [] ∧
    1 = ((pipelineParallel.edges.map (fun e => (e.source, e.target))).dedup).length :=
  ⟨by decide, @C1_num_edges_distinct pipelineParallel 2 1 true [] (by decide)⟩

/-- C2: on every successful parse, `is_dag` is true exactly when the built
graph has no directed cycle; `cycle_path` is empty when `is_dag` is true, and
otherwise it is a nonempty closed walk over the graph's arcs. -/
theorem C2_is_dag_iff_no_cycle {p : Pipeline} {n m : Nat} {d : Bool}
    {c : List (String × String)}
    (h : parse_pipeline p = ParseResult.success n m d c) :
    (d = true ↔ ¬ HasCycle (graphEdges p)) ∧
    (d = true → c = []) ∧
    (d = false → c ≠ [] ∧ ∃ v, IsWalk (graphEdges p) v c v) := by
  obtain ⟨hnd, hinv, -, -, hd, hc⟩ := parse_success_inv h
  have hV : ∀ e ∈ graphEdges p, e.1 ∈ nodeIds p :=
    fun e he => (graphEdges_endpoints hinv e he).1
  subst hd
  refine ⟨is_dag_iff hV, fun ht => by rw [hc, if_pos ht], fun hf => ?_⟩
  rw [hc, if_neg (by simp [hf])]
  obtain ⟨c0, hc0⟩ := find_cycle_of_not_dag hV hf
  rw [hc0]
  simpa using find_cycle_sound hc0

theorem C2_witness :
    (false = true ↔ ¬ HasCycle (graphEdges pipelineTriangle)) ∧
    (false = true → ([("A","B"), ("B","C"), ("C","A")] :
        List (String × String)) = []) ∧
    (false = false → ([("A","B"), ("B","C"), ("C","A")] :
        List (String × String)) ≠ [] ∧
      ∃ v, IsWalk (graphEdges pipelineTriangle) v [("A","B"), ("B","C"), ("C","A")] v) :=
  @C2_is_dag_iff_no_cycle pipelineTriangle 3 3 false
    [("A","B"), ("B","C"), ("C","A")] (by decide)

/-- C3: a pipeline whose node-id list has a repeat is answered with the bare
`DuplicateNodeIds` error, regardless of its edges. -/
theorem C3_duplicate_ids {p : Pipeline} (h : ¬ (nodeIds p).Nodup) :
    parse_pipeline p = ParseResult.duplicateNodeIds := by
  unfold parse_pipeline
  rw [if_pos]
  intro heq
  exact h (nodup_iff_length_dedup.mpr heq)

theorem C3_witness :
    ¬ (nodeIds pipelineDupIds).Nodup ∧
    parse_pipeline pipelineDupIds = ParseResult.duplicateNodeIds :=
  ⟨by decide, C3_duplicate_ids (by decide)⟩

/-- C4: with unique node ids and at least one dangling edge, the result is the
`InvalidEdges` error whose payload contains every offending edge. -/
theorem C4_invalid_edges {p : Pipeline} (hnd : (nodeIds p).Nodup)
    (hbad : ∃ e ∈ p.edges, e.source ∉ nodeIds p ∨ e.target ∉ nodeIds p) :
    parse_pipeline p = ParseResult.invalidEdges (invalidEdgesOf p) ∧
    ∀ e ∈ p.edges, (e.source ∉ nodeIds p ∨ e.target ∉ nodeIds p) →
      (e.source, e.target) ∈ invalidEdgesOf p := by
  have hne : invalidEdgesOf p ≠ [] := by
    obtain ⟨e, he, hoff⟩ := hbad
    intro hnil
    have hmem : (e.source, e.target) ∈ invalidEdgesOf p :=
      List.mem_map.mpr ⟨e, List.mem_filter.mpr ⟨he, by simpa using hoff⟩, rfl⟩
    rw [hnil] at hmem
    cases hmem
  refine ⟨?_, ?_⟩
  · unfold parse_pipeline
    rw [if_neg (not_ne_iff.mpr (nodup_iff_length_dedup.mp hnd)), if_pos hne]
  · intro e he hoff
    exact List.mem_map.mpr ⟨e, List.mem_filter.mpr ⟨he, by simpa using hoff⟩, rfl⟩

theorem C4_witness :
    parse_pipeline pipelineDangling =
      ParseResult.invalidEdges (invalidEdgesOf pipelineDangling) ∧
    ∀ e ∈ pipelineDangling.edges,
      (e.source ∉ nodeIds pipelineDangling ∨ e.target ∉ nodeIds pipelineDangling) →
      (e.source, e.target) ∈ invalidEdgesOf pipelineDangling :=
  C4_invalid_edges (by decide)
    ⟨{ source := "A", target := "Z" }, by decide, by decide⟩

/-- C5: a successful parse of a pipeline containing a self-loop always reports
`is_dag = false`. -/
theorem C5_self_loop {p : Pipeline} {n m : Nat} {d : Bool}
    {c : List (String × String)}
    (h : parse_pipeline p = ParseResult.success n m d c)
    (hloop : ∃ e ∈ p.edges, e.source = e.target) : d = false := by
  obtain ⟨hnd, hinv, -, -, hd, -⟩ := parse_success_inv h
  obtain ⟨e, he, heq⟩ := hloop
  have hmem : (e.source, e.source) ∈ graphEdges p := by
    unfold graphEdges
    rw [List.mem_dedup]
    exact List.mem_map.mpr ⟨e, he, by rw [heq]⟩
  have hcyc : HasCycle (graphEdges p) :=
    ⟨e.source, [(e.source, e.source)], by simp, ⟨rfl, hmem, rfl⟩⟩
  have hV : ∀ e2 ∈ graphEdges p, e2.1 ∈ nodeIds p :=
    fun e2 he2 => (graphEdges_endpoints hinv e2 he2).1
  subst hd
  cases hb : is_directed_acyclic_graph (nodeIds p) (graphEdges p) with
  | false => rfl
  | true => exact absurd hcyc ((is_dag_iff hV).mp hb)

theorem C5_witness :
    parse_pipeline pipelineSelfLoop = ParseResult.success 1 1 false [("A","A")] ∧
    false = false :=
  ⟨by decide, @C5_self_loop pipelineSelfLoop 1 1 false [("A","A")] (by decide)
    ⟨{ source := "A", target := "A" }, by decide, rfl⟩⟩

/-- C6: with no edges and duplicate-free node ids, the parse succeeds with
`is_dag = true` and an empty `cycle_path`, whatever the node count. -/
theorem C6_no_edges {p : Pipeline} (hnd : (nodeIds p).Nodup)
    (hedges : p.edges = []) :
    parse_pipeline p = ParseResult.success p.nodes.length 0 true [] := by
  have hinv : invalidEdgesOf p = [] := by simp [invalidEdgesOf, hedges]
  have hEg : graphEdges p = [] := by simp [graphEdges, hedges]
  have hdag : is_directed_acyclic_graph (nodeIds p) (graphEdges p) = true := by
    refine (is_dag_iff ?_).mpr ?_
    · rw [hEg]; intro e he; cases he
    · rintro ⟨v, w, hne, hw⟩
      cases w with
      | nil => exact hne rfl
      | cons e rest =>
        obtain ⟨a, b⟩ := e
        obtain ⟨-, he, -⟩ := hw
        rw [hEg] at he
        cases he
  rw [parse_eq_success hnd hinv, hdag, List.dedup_eq_self.mpr hnd]
  simp [hEg, nodeIds]

theorem C6_witness :
    (nodeIds pipelineNoEdges).Nodup ∧ pipelineNoEdges.edges = [] ∧
    parse_pipeline pipelineNoEdges = ParseResult.success 2 0 true [] :=
  ⟨by decide, rfl, C6_no_edges (p := pipelineNoEdges) (by decide) rfl⟩

/-- C7: on every successful parse, `num_nodes` equals the number of submitted
nodes. -/
theorem C7_num_nodes {p : Pipeline} {n m : Nat} {d : Bool}
    {c : List (String × String)}
    (h : parse_pipeline p = ParseResult.success n m d c) :
    n = p.nodes.length := by
  obtain ⟨hnd, -, hn, -, -, -⟩ := parse_success_inv h
  rw [hn, List.dedup_eq_self.mpr hnd]
  simp [nodeIds]

theorem C7_witness :
    parse_pipeline pipelineChain = ParseResult.success 3 2 true [] ∧
    3 = pipelineChain.nodes.length :=
  ⟨by decide, @C7_num_nodes pipelineChain 3 2 true [] (by decide)⟩

/-- C8: the cycle pipeline `A→B, B→C, C→A` yields `is_dag = false` and a
`cycle_path` consisting of exactly those three edges, in traversal rotation. -/
theorem C8_triangle :
    parse_pipeline pipelineTriangle =
      ParseResult.success 3 3 false [("A","B"), ("B","C"), ("C","A")] := by decide

/-- C9: validation is a pure function of its input — identical inputs give
identical outputs, with no hidden state between calls. -/
theorem C9_deterministic (p q : Pipeline) (h : p = q) :
    parse_pipeline p = parse_pipeline q :=
  congrArg parse_pipeline h

theorem C9_witness :
    parse_pipeline pipelineChain = parse_pipeline pipelineChain :=
  C9_deterministic pipelineChain pipelineChain rfl

/-- C10: when a successful parse reports `is_dag = false`, the cycle search
necessarily produces a witness — the no-cycle fallback branch is unreachable
and `cycle_path` is never silently empty. -/
theorem C10_cycle_path_nonempty {p : Pipeline} {n m : Nat} {d : Bool}
    {c : List (String × String)}
    (h : parse_pipeline p = ParseResult.success n m d c) (hd : d = false) :
    ∃ c0, find_cycle (nodeIds p) (graphEdges p) = some c0 ∧ c = c0 ∧ c ≠ [] := by
  obtain ⟨hnd, hinv, -, -, hdd, hc⟩ := parse_success_inv h
  have hV : ∀ e ∈ graphEdges p, e.1 ∈ nodeIds p :=
    fun e he => (graphEdges_endpoints hinv e he).1
  subst hdd
  obtain ⟨c0, hc0⟩ := find_cycle_of_not_dag hV hd
  refine ⟨c0, hc0, ?_, ?_⟩
  · rw [hc, if_neg (by simp [hd]), hc0]
    rfl
  · rw [hc, if_neg (by simp [hd]), hc0]
    simpa using (find_cycle_sound hc0).1

theorem C10_witness :
    ∃ c0, find_cycle (nodeIds pipelineTriangle) (graphEdges pipelineTriangle) = some c0 ∧
      ([("A","B"), ("B","C"), ("C","A")] : List (String × String)) = c0 ∧
      ([("A","B"), ("B","C"), ("C","A")] : List (String × String)) ≠ [] :=
  @C10_cycle_path_nonempty pipelineTriangle 3 3 false
    [("A","B"), ("B","C"), ("C","A")] (by decide) rfl

end PipelineParser
